import Mathlib

/-!
Shallow embedding of the prosody modification engine in
src/src/f5_tts/infer/prosody.py (repository Leonardo976/Interfaz).

Conventions of the embedding:
* Python floats are modelled as rationals; audio buffers as lists of rationals.
* Python `int(x)` (truncation toward zero) is `pyInt`.
* NumPy 1-d slicing, broadcasting of elementwise `*` and `+`, `np.linspace`,
  `np.zeros`, `np.clip` and `np.concatenate` are modelled directly; a NumPy
  call that raises (shape mismatch, negative size) is modelled as `none`.
* The librosa DSP routines `time_stretch` and `pitch_shift`, and the float
  power `10 ** x`, live outside the repository; they are passed in as an
  explicit `Lib` record of external functions, with `none` modelling a raised
  library exception.
* File loading and file writing are I/O outside the pipeline; `modify_prosody`
  here takes the loaded waveform and sample rate and returns the final
  floating-point waveform (the value the source converts to int16 and writes),
  or the failure result `{success: False, message: ...}` as `.error`.
-/

namespace Interfaz

/-- Python `int(x)` for a float x: truncation toward zero. -/
def pyInt (q : ℚ) : ℤ := if 0 ≤ q then ⌊q⌋ else ⌈q⌉

/-- NumPy slice `xs[a:b]` for nonnegative bounds a, b. -/
def pySlice (xs : List ℚ) (a b : ℕ) : List ℚ := (xs.drop a).take (b - a)

/-- Python slice `xs[-c:]`. Note the -0 quirk: when c = 0 this is `xs[0:]`,
the whole list, not the empty list. -/
def pyTailSlice (xs : List ℚ) (c : ℕ) : List ℚ :=
  if c = 0 then xs else xs.drop (xs.length - c)

/-- Python slice `xs[:-c]`. When c = 0 this is `xs[:0]`, the empty list. -/
def pyInitSlice (xs : List ℚ) (c : ℕ) : List ℚ :=
  if c = 0 then [] else xs.take (xs.length - c)

/-- NumPy `np.linspace a b n`. -/
def linspace (a b : ℚ) (n : ℕ) : List ℚ :=
  if n = 0 then []
  else if n = 1 then [a]
  else (List.range n).map (fun i : ℕ => a + (b - a) * (i : ℚ) / ((n : ℚ) - 1))

/-- NumPy elementwise product of two 1-d arrays with broadcasting;
`none` models the ValueError raised on incompatible shapes. -/
def npMul (xs ys : List ℚ) : Option (List ℚ) :=
  if xs.length = ys.length then some (List.zipWith (· * ·) xs ys)
  else if xs.length = 1 then some (ys.map (fun v => xs.headD 0 * v))
  else if ys.length = 1 then some (xs.map (fun v => v * ys.headD 0))
  else none

/-- NumPy elementwise sum of two 1-d arrays with broadcasting. -/
def npAdd (xs ys : List ℚ) : Option (List ℚ) :=
  if xs.length = ys.length then some (List.zipWith (· + ·) xs ys)
  else if xs.length = 1 then some (ys.map (fun v => xs.headD 0 + v))
  else if ys.length = 1 then some (xs.map (fun v => v + ys.headD 0))
  else none

/-- NumPy in-place `xs *= ys`: the result must keep the shape of xs,
so only a matching length or a length-1 ys is accepted. -/
def npMulIP (xs ys : List ℚ) : Option (List ℚ) :=
  if ys.length = xs.length then some (List.zipWith (· * ·) xs ys)
  else if ys.length = 1 then some (xs.map (fun v => v * ys.headD 0))
  else none

/-- The external numeric library surface used by prosody.py. The repository
code calls librosa.effects.time_stretch, librosa.effects.pitch_shift and the
float power `10 ** x`; their numeric behaviour is outside the repository, so
they are parameters of the model. A `none` result models a raised exception. -/
structure Lib where
  time_stretch : List ℚ → ℚ → Option (List ℚ)
  pitch_shift : List ℚ → ℕ → ℚ → Option (List ℚ)
  pow10 : ℚ → ℚ

/-- change_speed_pitch from prosody.py lines 15-32: time-stretch when
speed differs from 1.0, then pitch-shift when pitch differs from 0.0. -/
def change_speed_pitch (lib : Lib) (y : List ℚ) (sr : ℕ) (speed pitch : ℚ) :
    Option (List ℚ) :=
  match (if speed ≠ 1 then lib.time_stretch y speed else some y) with
  | none => none
  | some y1 => if pitch ≠ 0 then lib.pitch_shift y1 sr pitch else some y1

/-- insert_silence from prosody.py lines 34-46: `np.zeros(int(duration * sr))`.
`none` models the ValueError np.zeros raises on a negative size. -/
def insert_silence (duration : ℚ) (sr : ℕ) : Option (List ℚ) :=
  if pyInt (duration * (sr : ℚ)) < 0 then none
  else some (List.replicate (pyInt (duration * (sr : ℚ))).toNat 0)

/-- The buffer after the in-place `y[:f] *= linspace(0,1,f)` of apply_fade
(the shapes of that multiply always agree, so it cannot raise). -/
def fadeInPass (y : List ℚ) (f : ℕ) : List ℚ :=
  List.zipWith (· * ·) (y.take f) (linspace 0 1 f) ++ y.drop f

/-- Core of apply_fade once the fade window f has been computed:
`y[:f] *= linspace(0,1,f)` then `y[-f:] *= linspace(1,0,f)`. -/
def apply_fade_core (y : List ℚ) (f : ℕ) : Option (List ℚ) :=
  match npMulIP (pyTailSlice (fadeInPass y f) f) (linspace 1 0 f) with
  | none => none
  | some t => some (pyInitSlice (fadeInPass y f) f ++ t)

/-- apply_fade from prosody.py lines 48-70. The fade window
`int(fade_duration * sr)` is clamped to the full segment length (the source
clamp is `if fade_samples > len(y)`); a negative window makes np.linspace
raise, and a zero window on a nonempty segment makes the in-place multiply
of the whole array by an empty ramp raise, both modelled as `none`. -/
def apply_fade (y : List ℚ) (sr : ℕ) (fade_duration : ℚ) : Option (List ℚ) :=
  if pyInt (fade_duration * (sr : ℚ)) < 0 then none
  else apply_fade_core y (min (pyInt (fade_duration * (sr : ℚ))).toNat y.length)

/-- Modelled from the spec words for apply_fade, for refinement comparison:
identical except that the fade window is shrunk to segment_length // 2. -/
def apply_fade_spec (y : List ℚ) (sr : ℕ) (fade_duration : ℚ) :
    Option (List ℚ) :=
  if pyInt (fade_duration * (sr : ℚ)) < 0 then none
  else apply_fade_core y
    (min (pyInt (fade_duration * (sr : ℚ))).toNat (y.length / 2))

/-- crossfade_segments from prosody.py lines 72-106. The overlap window
`int(crossfade_duration * sr)` is clamped first to len(seg1), then to
len(seg2). The ramped tail of seg1 is `seg1[-c:] * linspace(1,0,c)` and the
ramped head of seg2 is `seg2[:c] * linspace(0,1,c)`; the combined output is
`seg1[:-c] ++ (tail + head) ++ seg2[c:]`. On a zero clamped window the
slice `seg1[-0:]` is the whole of seg1 and the NumPy product with the empty
ramp raises unless seg1 has at most one sample (modelled via npMul). -/
def crossfadeWindow (seg1 seg2 : List ℚ) (sr : ℕ) (cfd : ℚ) : ℕ :=
  min (min (pyInt (cfd * (sr : ℚ))).toNat seg1.length) seg2.length

def crossfade_segments (seg1 seg2 : List ℚ) (sr : ℕ)
    (crossfade_duration : ℚ) : Option (List ℚ) :=
  if pyInt (crossfade_duration * (sr : ℚ)) < 0 then none else
  match npMul (pyTailSlice seg1 (crossfadeWindow seg1 seg2 sr crossfade_duration))
          (linspace 1 0 (crossfadeWindow seg1 seg2 sr crossfade_duration)),
        npMul (seg2.take (crossfadeWindow seg1 seg2 sr crossfade_duration))
          (linspace 0 1 (crossfadeWindow seg1 seg2 sr crossfade_duration)) with
  | some e1, some s2 =>
    match npAdd e1 s2 with
    | some mid =>
      some (pyInitSlice seg1 (crossfadeWindow seg1 seg2 sr crossfade_duration)
        ++ mid ++ seg2.drop (crossfadeWindow seg1 seg2 sr crossfade_duration))
    | none => none
  | _, _ => none

/-- A modification dict from the edit list. For a silence edit the duration
key may be absent (`none`); the source then defaults it to 1.0 second via
`mod.get` on line 207. Field order of the prosody form: start_time, end_time,
pitch_shift, volume_change, speed_change. -/
inductive Mod where
  | silence (start_time : ℚ) (duration : Option ℚ)
  | prosody (start_time end_time pitch_shift volume_change speed_change : ℚ)
deriving DecidableEq

/-- The sort key used on line 192: `x['start_time']`. -/
def Mod.startTime : Mod → ℚ
  | .silence s _ => s
  | .prosody s _ _ _ _ => s

/-- Stable insertion of m after every element whose key is ≤ its key,
so that `sortByStart` models the stability of Python sorted. -/
def insertByStart (m : Mod) : List Mod → List Mod
  | [] => [m]
  | x :: xs =>
    if x.startTime ≤ m.startTime then x :: insertByStart m xs
    else m :: x :: xs

/-- Stable sort by start_time, modelling `sorted(modifications, key=...)`. -/
def sortByStart (ms : List Mod) : List Mod :=
  ms.foldl (fun acc m => insertByStart m acc) []

/-- A segment held in the `segments` accumulator of modify_prosody. A slice
`y[a:b]` of the loaded waveform is a NumPy view sharing the buffer (`view`);
an array freshly allocated by a transform, np.zeros or a copying multiply is
`arr`. The distinction matters because apply_fade writes in place: fading a
view mutates the shared source buffer. -/
inductive Seg where
  | view (a b : ℕ)
  | arr (data : List ℚ)
deriving DecidableEq

/-- Read the sample values a segment currently denotes, given the current
contents of the shared source buffer. -/
def resolveSeg (yBuf : List ℚ) : Seg → List ℚ
  | .view a b => pySlice yBuf a b
  | .arr d => d

/-- Overwrite yBuf[a : a + vals.length] with vals: the effect of an in-place
NumPy write through a view starting at index a. -/
def spliceAt (yBuf : List ℚ) (a : ℕ) (vals : List ℚ) : List ℚ :=
  yBuf.take a ++ vals ++ yBuf.drop (a + vals.length)

/-- The mutable state of the scheduling loop in modify_prosody lines 198-305:
the shared source buffer (mutable through views), the accumulated segment
list, and last_end_sec. -/
structure SchedState where
  yBuf : List ℚ
  segments : List Seg
  lastEnd : ℚ
deriving DecidableEq

/-- The per-call constants the loop reads: sample rate, total duration in
seconds, fade_duration, silence_between_mods. -/
structure Cfg where
  sr : ℕ
  total : ℚ
  fade_duration : ℚ
  silence_between_mods : ℚ
deriving DecidableEq

/-- Common tail of the prosody branch (lines 293-305): append the
between-modifications silence when this is not the last sorted edit, then
append the processed segment and advance last_end_sec to the clamped
end_time. -/
def finishProsody (cfg : Cfg) (notLast : Bool) (segs1 : List Seg)
    (yBuf2 : List ℚ) (seg : Seg) (e2 : ℚ) : Except String SchedState :=
  if notLast then
    match insert_silence cfg.silence_between_mods cfg.sr with
    | none => .error "Error al insertar silencio entre modificaciones"
    | some z => .ok ⟨yBuf2, segs1 ++ [Seg.arr z] ++ [seg], e2⟩
  else .ok ⟨yBuf2, segs1 ++ [seg], e2⟩

/-- One iteration of the modification loop (lines 203-305). `notLast` is
`idx < len(modifications_sorted) - 1`. An `.error` is the source returning
its failure dict (or, for insert_silence inside the silence branch, raising).

Prosody branch fidelity notes:
* validation (line 243) happens before end_time is clamped (line 248);
* the extracted `y[start_sample:end_sample]` is a view; time_stretch,
  pitch_shift and the volume multiply each allocate a fresh array, so the
  in-place apply_fade mutates the shared buffer exactly when speed = 1,
  pitch = 0 and volume = 0 for this edit. -/
def stepMod (lib : Lib) (cfg : Cfg) (notLast : Bool) (st : SchedState) :
    Mod → Except String SchedState
  | .silence s dur? =>
    if s < 0 ∨ cfg.total < s then
      .error "start_time inválido"
    else
      let startSample := (pyInt (s * (cfg.sr : ℚ))).toNat
      let segs1 :=
        if st.lastEnd < s then
          st.segments ++ [Seg.view (pyInt (st.lastEnd * (cfg.sr : ℚ))).toNat startSample]
        else st.segments
      match insert_silence (dur?.getD 1) cfg.sr with
      | none => .error "raise ValueError: negative dimensions are not allowed"
      | some z => .ok ⟨st.yBuf, segs1 ++ [Seg.arr z], s⟩
  | .prosody s e pitch vol speed =>
    if s < 0 ∨ e ≤ s then
      .error "tiempos inválidos"
    else
      let e2 := if cfg.total < e then cfg.total else e
      let a := (pyInt (s * (cfg.sr : ℚ))).toNat
      let b := (pyInt (e2 * (cfg.sr : ℚ))).toNat
      let segs1 :=
        if st.lastEnd < s then
          st.segments ++ [Seg.view (pyInt (st.lastEnd * (cfg.sr : ℚ))).toNat a]
        else st.segments
      let vals0 := pySlice st.yBuf a b
      match (if speed ≠ 1 ∨ pitch ≠ 0 then
               (change_speed_pitch lib vals0 cfg.sr speed pitch).map some
             else some none) with
      | none => .error "Error al aplicar cambio de velocidad y pitch"
      | some fresh =>
        let fresh2 : Option (List ℚ) :=
          if vol ≠ 0 then
            let factor := lib.pow10 (vol / 20)
            some (((fresh.getD vals0).map (· * factor)).map
                    (fun v => max (-1) (min 1 v)))
          else fresh
        match fresh2 with
        | some v =>
          match apply_fade v cfg.sr cfg.fade_duration with
          | none => .error "Error al aplicar fades"
          | some v2 => finishProsody cfg notLast segs1 st.yBuf (Seg.arr v2) e2
        | none =>
          match apply_fade vals0 cfg.sr cfg.fade_duration with
          | none => .error "Error al aplicar fades"
          | some v2 =>
            finishProsody cfg notLast segs1 (spliceAt st.yBuf a v2)
              (Seg.view a b) e2

/-- The loop over the sorted modifications. -/
def runLoop (lib : Lib) (cfg : Cfg) : SchedState → List Mod →
    Except String SchedState
  | st, [] => .ok st
  | st, m :: rest =>
    match stepMod lib cfg (!rest.isEmpty) st m with
    | .error msg => .error msg
    | .ok st2 => runLoop lib cfg st2 rest

/-- The loop plus the trailing unmodified slice `y[int(last_end*sr):]`
appended when last_end_sec < total_duration_sec (lines 307-315). -/
def runSchedule (lib : Lib) (cfg : Cfg) (y : List ℚ) (mods : List Mod) :
    Except String SchedState :=
  match runLoop lib cfg ⟨y, [], 0⟩ mods with
  | .error m => .error m
  | .ok st =>
    if st.lastEnd < cfg.total then
      .ok { st with
            segments := st.segments ++
              [Seg.view (pyInt (st.lastEnd * (cfg.sr : ℚ))).toNat st.yBuf.length] }
    else .ok st

/-- Peak absolute amplitude, `np.max(np.abs(xs))` (0 for the empty list,
on which the NumPy call would raise; the pipeline guards that case). -/
def maxAbs (xs : List ℚ) : ℚ := xs.foldl (fun acc v => max acc |v|) 0

/-- Normalization step of modify_prosody lines 340-348: divide by the peak
only when the peak exceeds 1.0; otherwise the signal is left unchanged. -/
def normalize_audio (xs : List ℚ) : List ℚ :=
  let m := maxAbs xs
  if 1 < m then xs.map (· / m) else xs

/-- Whether one sample counts as silent in detect_silence (lines 392-395).
The source computes `librosa.amplitude_to_db(np.abs(y), ref=np.max)` and
compares with silence_thresh in dB. With θ the linear amplitude threshold
10 ^ (silence_thresh / 20), the comparison `y_db < silence_thresh` is
equivalent (monotonely in the dB scale) to this rational inequality, where
amin = 1e-5 is the librosa amplitude floor, r is the peak-referenced power
ceiling and the clamp `θ² > 1e-8` is the top_db = 80 cutoff of
amplitude_to_db. -/
def silentFlag (r θsq v : ℚ) : Bool :=
  decide (max ((1 : ℚ)/10000000000) (v * v) < r * θsq ∧
          (1 : ℚ)/100000000 < θsq)

/-- The sample-silence flags of detect_silence: thresholding is relative to
the waveform peak because amplitude_to_db is called with ref=np.max. -/
def silenceFlags (y : List ℚ) (θ : ℚ) : List Bool :=
  y.map (silentFlag
    (max ((1 : ℚ)/10000000000) (maxAbs y * maxAbs y)) (θ * θ))

/-- The run-coalescing loop of detect_silence lines 398-414: group
consecutive silent samples, keep runs of duration ≥ min_silence_len, emit
(start / sr, end / sr) in seconds; a run touching the end of the waveform is
closed at the final index. -/
def silenceLoop (sr : ℕ) (minLen : ℚ) :
    List Bool → ℕ → Option ℕ → List (ℚ × ℚ)
  | [], _, none => []
  | [], i, some s =>
    if minLen ≤ ((i : ℚ) - (s : ℚ)) / (sr : ℚ) then
      [((s : ℚ) / (sr : ℚ), (i : ℚ) / (sr : ℚ))]
    else []
  | f :: rest, i, none =>
    if f then silenceLoop sr minLen rest (i + 1) (some i)
    else silenceLoop sr minLen rest (i + 1) none
  | f :: rest, i, some s =>
    if f then silenceLoop sr minLen rest (i + 1) (some s)
    else
      (if minLen ≤ ((i : ℚ) - (s : ℚ)) / (sr : ℚ) then
        [((s : ℚ) / (sr : ℚ), (i : ℚ) / (sr : ℚ))]
      else []) ++ silenceLoop sr minLen rest (i + 1) none

/-- detect_silence from prosody.py lines 375-416, parametrized by the linear
threshold θ = 10 ^ (silence_thresh / 20) (a strictly monotone reparametrization
of the dB threshold). -/
def detect_silence (y : List ℚ) (sr : ℕ) (min_silence_len θ : ℚ) :
    List (ℚ × ℚ) :=
  silenceLoop sr min_silence_len (silenceFlags y θ) 0 none

/-- Modelled from the spec words for detect_silence, for refinement
comparison: a sample is silent exactly when its absolute amplitude is below
the fixed linear threshold θ = 10 ^ (silence_thresh / 20); coalescing and
filtering as in the source. -/
def detect_silence_spec (y : List ℚ) (sr : ℕ) (min_silence_len θ : ℚ) :
    List (ℚ × ℚ) :=
  silenceLoop sr min_silence_len (y.map (fun v => decide (|v| < θ))) 0 none

/-- Fold of crossfade_segments over the segment list (lines 322-329), first
segment seeding the accumulator. -/
def foldCrossfade (sr : ℕ) (cfd : ℚ) :
    List ℚ → List (List ℚ) → Except String (List ℚ)
  | acc, [] => .ok acc
  | acc, s :: rest =>
    match crossfade_segments acc s sr cfd with
    | none => .error "Error al concatenar segmentos con crossfade"
    | some c => foldCrossfade sr cfd c rest

/-- modify_prosody from prosody.py lines 108-373, from the point where the
waveform y and sample rate sr have been loaded. Parameters follow the source
signature; θ is the linear form of silence_thresh as in detect_silence.
Returns the final floating-point waveform (the value converted to int16 and
written on the success path), or `.error` for the failure dict.

Remove-silence fidelity (lines 171-188): the rebuild loop slices y with the
float second-values returned by detect_silence, which raises TypeError on
the first detected range (caught, returning failure); with no detected
ranges the loop body never runs and y passes through unchanged. An empty
waveform makes np.max inside detect_silence raise, also caught. -/
def modify_prosody (lib : Lib) (y : List ℚ) (sr : ℕ) (modifications : List Mod)
    (remove_silence : Bool)
    (min_silence_len θ keep_silence global_speed_change cross_fade_duration
      fade_duration silence_between_mods : ℚ) :
    Except String (List ℚ) :=
  match (if remove_silence then
           if y = [] then .error "Error al eliminar silencios"
           else if detect_silence y sr min_silence_len θ = [] then .ok y
           else .error "Error al eliminar silencios"
         else .ok y : Except String (List ℚ)) with
  | .error m => .error m
  | .ok y1 =>
    match runSchedule lib ⟨sr, (y1.length : ℚ) / (sr : ℚ), fade_duration,
        silence_between_mods⟩ y1 (sortByStart modifications) with
    | .error m => .error m
    | .ok st =>
      match st.segments.map (resolveSeg st.yBuf) with
      | [] => .error "No se generaron segmentos de audio."
      | s0 :: rest =>
        match foldCrossfade sr cross_fade_duration s0 rest with
        | .error m => .error m
        | .ok fa =>
          match (if global_speed_change ≠ 1 then
                   change_speed_pitch lib fa sr global_speed_change 0
                 else some fa) with
          | none => .error "Error al aplicar cambio de velocidad global"
          | some fb =>
            if fb = [] then .error "Error al normalizar audio"
            else .ok (normalize_audio fb)

/-- True on the success dict, false on the failure dict. -/
def isSuccess {α : Type} : Except String α → Bool
  | .ok _ => true
  | .error _ => false

/-- All view segments still read back, from the current buffer, the same
samples as in the originally loaded waveform y. -/
def viewsIntact (y : List ℚ) (st : SchedState) : Bool :=
  st.segments.all (fun seg =>
    match seg with
    | .view a b => decide (pySlice st.yBuf a b = pySlice y a b)
    | .arr _ => true)

/-- A library record whose transforms return their input unchanged and whose
power function is constant; used to instantiate concrete runs. -/
def trivialLib : Lib :=
  ⟨fun v _ => some v, fun v _ _ => some v, fun _ => 1⟩

/-- A library record whose transforms always raise; used to exercise the
transform-failure path. -/
def failLib : Lib := ⟨fun _ _ => none, fun _ _ _ => none, fun _ => 1⟩

/-! Helper lemmas about the embedded primitives. -/

theorem foldl_max_abs_le {b : ℚ} :
    ∀ (xs : List ℚ) (a : ℚ), a ≤ b → (∀ x ∈ xs, |x| ≤ b) →
      xs.foldl (fun acc v => max acc |v|) a ≤ b := by
  intro xs
  induction xs with
  | nil => intro a ha _; simpa using ha
  | cons x xs ih =>
    intro a ha h
    simp only [List.foldl_cons]
    exact ih (max a |x|) (max_le ha (h x (List.mem_cons_self x xs)))
      (fun v hv => h v (List.mem_cons_of_mem x hv))

theorem le_foldl_max_abs :
    ∀ (xs : List ℚ) (a : ℚ), a ≤ xs.foldl (fun acc v => max acc |v|) a := by
  intro xs
  induction xs with
  | nil => intro a; simp
  | cons x xs ih =>
    intro a
    simp only [List.foldl_cons]
    exact le_trans (le_max_left a |x|) (ih (max a |x|))

theorem abs_le_foldl_max_abs :
    ∀ (xs : List ℚ) (a x : ℚ), x ∈ xs →
      |x| ≤ xs.foldl (fun acc v => max acc |v|) a := by
  intro xs
  induction xs with
  | nil => intro a x hx; cases hx
  | cons v xs ih =>
    intro a x hx
    simp only [List.foldl_cons]
    rcases List.mem_cons.mp hx with rfl | hmem
    · exact le_trans (le_max_right a |x|) (le_foldl_max_abs xs (max a |x|))
    · exact ih (max a |v|) x hmem

theorem maxAbs_nonneg (xs : List ℚ) : 0 ≤ maxAbs xs :=
  le_foldl_max_abs xs 0

theorem maxAbs_le (xs : List ℚ) (b : ℚ) (hb : 0 ≤ b)
    (h : ∀ x ∈ xs, |x| ≤ b) : maxAbs xs ≤ b :=
  foldl_max_abs_le xs 0 hb h

theorem abs_le_maxAbs (xs : List ℚ) (x : ℚ) (hx : x ∈ xs) :
    |x| ≤ maxAbs xs :=
  abs_le_foldl_max_abs xs 0 x hx

theorem linspace_length (a b : ℚ) (n : ℕ) : (linspace a b n).length = n := by
  unfold linspace
  rcases n with _ | _ | n
  · rfl
  · rfl
  · rw [if_neg (by omega), if_neg (by omega), List.length_map,
      List.length_range]

theorem npMul_of_length_eq {xs ys : List ℚ} (h : xs.length = ys.length) :
    npMul xs ys = some (List.zipWith (· * ·) xs ys) := by
  unfold npMul
  rw [if_pos h]

theorem npAdd_of_length_eq {xs ys : List ℚ} (h : xs.length = ys.length) :
    npAdd xs ys = some (List.zipWith (· + ·) xs ys) := by
  unfold npAdd
  rw [if_pos h]

theorem npMulIP_of_length_eq {xs ys : List ℚ} (h : ys.length = xs.length) :
    npMulIP xs ys = some (List.zipWith (· * ·) xs ys) := by
  unfold npMulIP
  rw [if_pos h]

theorem pyTailSlice_length_of_le {xs : List ℚ} {c : ℕ} (h : c ≠ 0)
    (hc : c ≤ xs.length) : (pyTailSlice xs c).length = c := by
  unfold pyTailSlice
  rw [if_neg h]
  simp
  omega

theorem pyInitSlice_length_of_le {xs : List ℚ} {c : ℕ} (h : c ≠ 0) :
    (pyInitSlice xs c).length = xs.length - c := by
  unfold pyInitSlice
  rw [if_neg h]
  simp

/-! Claim C3. -/

/-- C3: after the normalization step the peak absolute sample value is ≤ 1.0,
achieved by dividing the whole signal by its peak only when the peak exceeds
1.0; a signal already within [-1.0, 1.0] is returned unchanged. -/
theorem C3_normalization_no_clip (xs : List ℚ) :
    maxAbs (normalize_audio xs) ≤ 1 ∧
    (maxAbs xs ≤ 1 → normalize_audio xs = xs) := by
  constructor
  · unfold normalize_audio
    by_cases h : 1 < maxAbs xs
    · rw [if_pos h]
      apply maxAbs_le _ 1 zero_le_one
      intro y hy
      rcases List.mem_map.mp hy with ⟨x, hx, rfl⟩
      have hm : 0 < maxAbs xs := lt_trans one_pos h
      rw [abs_div, abs_of_pos hm, div_le_one hm]
      exact abs_le_maxAbs xs x hx
    · rw [if_neg h]
      exact le_of_not_lt h
  · intro h
    unfold normalize_audio
    rw [if_neg (not_lt.mpr h)]

/-- Witness for C3 at concrete inputs: a loud signal is scaled into range and
a quiet signal is returned unchanged. -/
theorem C3_witness :
    maxAbs (normalize_audio [2]) ≤ 1 ∧
    maxAbs [(1:ℚ)/2] ≤ 1 ∧ normalize_audio [(1:ℚ)/2] = [(1:ℚ)/2] :=
  ⟨(C3_normalization_no_clip [2]).1,
   by norm_num [maxAbs, abs, max_def],
   (C3_normalization_no_clip [(1:ℚ)/2]).2 (by norm_num [maxAbs, abs, max_def])⟩

/-! Claim C8. -/

/-- C8 counterexample: insert_silence truncates `duration * sr` with int(),
not round(): at duration 9/10 and sample rate 1 the source allocates
int(0.9) = 0 samples while round(0.9) = 1. -/
theorem C8_counterexample :
    insert_silence ((9:ℚ)/10) 1 = some [] ∧
    round ((9:ℚ)/10 * ((1:ℕ):ℚ)) = 1 := by
  constructor
  · norm_num [insert_silence, pyInt]
  · norm_num [round_eq]

/-- C8 amended: for nonnegative duration, insert_silence returns exactly
⌊duration * sr⌋ zero samples (truncation, not rounding). -/
theorem C8_amended (d : ℚ) (sr : ℕ) (hd : 0 ≤ d) :
    insert_silence d sr = some (List.replicate (⌊d * (sr:ℚ)⌋).toNat 0) ∧
    pyInt (d * (sr:ℚ)) = ⌊d * (sr:ℚ)⌋ := by
  have h0 : 0 ≤ d * (sr:ℚ) := mul_nonneg hd (by positivity)
  have hpy : pyInt (d * (sr:ℚ)) = ⌊d * (sr:ℚ)⌋ := by
    unfold pyInt
    rw [if_pos h0]
  refine ⟨?_, hpy⟩
  unfold insert_silence
  rw [hpy, if_neg (not_lt.mpr (Int.floor_nonneg.mpr h0))]

/-- Witness for C8 amended at duration 9/10, sample rate 1. -/
theorem C8_witness :
    insert_silence ((9:ℚ)/10) 1
        = some (List.replicate (⌊(9:ℚ)/10 * ((1:ℕ):ℚ)⌋).toNat 0) ∧
    pyInt ((9:ℚ)/10 * ((1:ℕ):ℚ)) = ⌊(9:ℚ)/10 * ((1:ℕ):ℚ)⌋ :=
  C8_amended ((9:ℚ)/10) 1 (by norm_num)

/-! Claim C4. -/

/-- C4 counterexample: apply_fade clamps the fade window to the full segment
length, not to segment_length // 2 as the spec states. On a 3-sample segment
with ⌊fade_duration * sr⌋ = 4 the source fades over all 3 samples (the two
ramps overlap and multiply), while the spec version fades over 1. -/
theorem C4_counterexample :
    apply_fade [1, 1, 1] 1 4 = some [0, 1/4, 0] ∧
    apply_fade_spec [1, 1, 1] 1 4 = some [0, 1, 1] ∧
    apply_fade [1, 1, 1] 1 4 ≠ apply_fade_spec [1, 1, 1] 1 4 := by
  have h1 : apply_fade [1, 1, 1] 1 4 = some [0, 1/4, 0] := by
    norm_num [apply_fade, apply_fade_core, fadeInPass, pyInt, linspace, pyTailSlice,
      pyInitSlice, npMulIP, List.range_succ]
  have h2 : apply_fade_spec [1, 1, 1] 1 4 = some [0, 1, 1] := by
    norm_num [apply_fade_spec, apply_fade_core, fadeInPass, pyInt, linspace, pyTailSlice,
      pyInitSlice, npMulIP, List.range_succ]
  refine ⟨h1, h2, ?_⟩
  rw [h1, h2]
  intro h
  have h3 := Option.some.inj h
  have h4 : ((1:ℚ)/4) = 1 := by
    have := congrArg (fun l => l.get? 1) h3
    simpa using this
  norm_num at h4

theorem fadeInPass_length (y : List ℚ) (f : ℕ) (hf : f ≤ y.length) :
    (fadeInPass y f).length = y.length := by
  unfold fadeInPass
  rw [List.length_append, List.length_zipWith, List.length_take,
    linspace_length, List.length_drop]
  omega

theorem apply_fade_core_map_length (y : List ℚ) (f : ℕ) (hf : f ≤ y.length)
    (h0 : f = 0 → y.length = 0) :
    (apply_fade_core y f).map List.length = some y.length := by
  unfold apply_fade_core
  rcases Nat.eq_zero_or_pos f with rfl | hfpos
  · have hy : y = [] := List.length_eq_zero.mp (h0 rfl)
    subst hy
    rfl
  · have hf0 : f ≠ 0 := Nat.pos_iff_ne_zero.mp hfpos
    rw [npMulIP_of_length_eq]
    · simp only [Option.map]
      congr 1
      rw [List.length_append, pyInitSlice_length_of_le hf0,
        fadeInPass_length y f hf, List.length_zipWith,
        pyTailSlice_length_of_le hf0 (by rw [fadeInPass_length y f hf]; omega),
        linspace_length]
      omega
    · rw [linspace_length,
        pyTailSlice_length_of_le hf0 (by rw [fadeInPass_length y f hf]; omega)]

/-- C4 amended: the fade window is ⌊fade_duration * sr⌋ clamped to the full
segment length (so it can exceed half the segment and the fade-in and
fade-out windows can overlap, as the counterexample shows); for a window of
at least one sample the fade succeeds and preserves the segment length. -/
theorem C4_amended (y : List ℚ) (sr : ℕ) (fd : ℚ)
    (h : 1 ≤ pyInt (fd * (sr:ℚ))) :
    apply_fade y sr fd
        = apply_fade_core y (min (pyInt (fd * (sr:ℚ))).toNat y.length) ∧
    min (pyInt (fd * (sr:ℚ))).toNat y.length ≤ y.length ∧
    (apply_fade y sr fd).map List.length = some y.length := by
  have hnn : ¬ pyInt (fd * (sr:ℚ)) < 0 := by omega
  have heq : apply_fade y sr fd
      = apply_fade_core y (min (pyInt (fd * (sr:ℚ))).toNat y.length) := by
    unfold apply_fade
    rw [if_neg hnn]
  refine ⟨heq, min_le_right _ _, ?_⟩
  rw [heq]
  apply apply_fade_core_map_length
  · exact min_le_right _ _
  · intro hzero
    have h1 : 1 ≤ (pyInt (fd * (sr:ℚ))).toNat := by omega
    omega

/-- Witness for C4 amended at the counterexample input. -/
theorem C4_witness :
    apply_fade [1, 1, 1] 1 4
        = apply_fade_core [1, 1, 1]
            (min (pyInt (4 * ((1:ℕ):ℚ))).toNat [(1:ℚ), 1, 1].length) ∧
    min (pyInt (4 * ((1:ℕ):ℚ))).toNat [(1:ℚ), 1, 1].length
        ≤ [(1:ℚ), 1, 1].length ∧
    (apply_fade [1, 1, 1] 1 4).map List.length = some [(1:ℚ), 1, 1].length :=
  C4_amended [1, 1, 1] 1 4 (by norm_num [pyInt])

/-! Claim C5. -/

/-- C5 counterexample: crossfading with an empty second segment fails. The
clamped window is 0, so `seg1[-0:]` is the whole first segment and its NumPy
product with the empty ramp raises a broadcast error, modelled as none. -/
theorem C5_counterexample :
    crossfade_segments [1, 2] [] 16000 (1/20) = none := by
  norm_num [crossfade_segments, crossfadeWindow, pyInt, linspace, pyTailSlice, pyInitSlice,
    npMul, npAdd]

/-- C5 amended: for nonempty segments and a crossfade window of at least one
sample, crossfade_segments clamps the overlap to the shorter of the two
segment lengths and returns a combined segment of the expected length. -/
theorem C5_amended (seg1 seg2 : List ℚ) (sr : ℕ) (cfd : ℚ)
    (h1 : seg1 ≠ []) (h2 : seg2 ≠ []) (hc : 1 ≤ pyInt (cfd * (sr:ℚ))) :
    (crossfade_segments seg1 seg2 sr cfd).map List.length
      = some (seg1.length + seg2.length
          - min (min (pyInt (cfd * (sr:ℚ))).toNat seg1.length) seg2.length) := by
  have hl1 : 0 < seg1.length := List.length_pos.mpr h1
  have hl2 : 0 < seg2.length := List.length_pos.mpr h2
  have hc1 : 1 ≤ (pyInt (cfd * (sr:ℚ))).toNat := by omega
  have hcw : crossfadeWindow seg1 seg2 sr cfd
      = min (min (pyInt (cfd * (sr:ℚ))).toNat seg1.length) seg2.length := rfl
  rw [← hcw]
  unfold crossfade_segments
  rw [if_neg (by omega)]
  generalize hgen : crossfadeWindow seg1 seg2 sr cfd = c
  rw [hcw] at hgen
  have hcpos : 1 ≤ c := hgen ▸ le_min (le_min hc1 hl1) hl2
  have hc0 : c ≠ 0 := by omega
  have hcl1 : c ≤ seg1.length :=
    hgen ▸ le_trans (min_le_left _ _) (min_le_right _ _)
  have hcl2 : c ≤ seg2.length := hgen ▸ min_le_right _ _
  rw [npMul_of_length_eq
      (by rw [pyTailSlice_length_of_le hc0 hcl1, linspace_length]),
    npMul_of_length_eq
      (by rw [List.length_take, linspace_length]; omega)]
  dsimp only
  rw [npAdd_of_length_eq
      (by rw [List.length_zipWith, List.length_zipWith, List.length_take,
          pyTailSlice_length_of_le hc0 hcl1, linspace_length,
          linspace_length]; omega)]
  simp only [Option.map]
  congr 1
  rw [List.length_append, List.length_append, List.length_zipWith,
    List.length_zipWith, List.length_zipWith, pyInitSlice_length_of_le hc0,
    pyTailSlice_length_of_le hc0 hcl1, List.length_take, List.length_drop,
    linspace_length, linspace_length]
  omega

/-- Witness for C5 amended: two 2-sample segments with a 1-sample window
combine into 3 samples. -/
theorem C5_witness :
    (crossfade_segments [1, 2] [3, 4] 1 1).map List.length
      = some ([(1:ℚ), 2].length + [(3:ℚ), 4].length
          - min (min (pyInt (1 * ((1:ℕ):ℚ))).toNat [(1:ℚ), 2].length)
              [(3:ℚ), 4].length) :=
  C5_amended [1, 2] [3, 4] 1 1 (by simp) (by simp) (by norm_num [pyInt])

/-! Claim C10. -/

theorem insert_silence_one (sr : ℕ) :
    insert_silence 1 sr = some (List.replicate sr 0) := by
  have h1 : pyInt ((1:ℚ) * (sr:ℚ)) = (sr : ℤ) := by
    rw [one_mul]
    unfold pyInt
    rw [if_pos (by exact_mod_cast Nat.zero_le sr), Int.floor_natCast]
  unfold insert_silence
  rw [h1, if_neg (by omega)]
  simp

/-- C10: a silence edit with a valid start_time and no duration field is not
rejected by the scheduling step: the step succeeds and appends a silence
block of int(1.0 * sr) = sr samples, one second at the default duration 1.0,
after the optional gap slice, advancing last_end to the start time. -/
theorem C10_default_silence_duration (lib : Lib) (cfg : Cfg) (notLast : Bool)
    (st : SchedState) (s : ℚ) (h0 : 0 ≤ s) (hs : s ≤ cfg.total) :
    stepMod lib cfg notLast st (Mod.silence s none)
      = .ok ⟨st.yBuf,
             (if st.lastEnd < s then
                st.segments
                  ++ [Seg.view (pyInt (st.lastEnd * (cfg.sr:ℚ))).toNat
                        (pyInt (s * (cfg.sr:ℚ))).toNat]
              else st.segments) ++ [Seg.arr (List.replicate cfg.sr 0)], s⟩ := by
  have hins : insert_silence ((none : Option ℚ).getD 1) cfg.sr
      = some (List.replicate cfg.sr 0) := insert_silence_one cfg.sr
  simp only [stepMod]
  rw [if_neg (by push_neg; exact ⟨h0, hs⟩)]
  simp only [hins]

/-- Witness for C10 at a concrete state: sample rate 2, start time 1. -/
theorem C10_witness :
    stepMod trivialLib ⟨2, 3, 1, 1⟩ false ⟨[1, 1], [], 0⟩ (Mod.silence 1 none)
      = .ok ⟨[1, 1],
             (if (0:ℚ) < 1 then
                ([] : List Seg)
                  ++ [Seg.view (pyInt ((0:ℚ) * ((2:ℕ):ℚ))).toNat
                        (pyInt ((1:ℚ) * ((2:ℕ):ℚ))).toNat]
              else []) ++ [Seg.arr (List.replicate 2 0)], 1⟩ :=
  C10_default_silence_duration trivialLib ⟨2, 3, 1, 1⟩ false ⟨[1, 1], [], 0⟩ 1
    (by norm_num) (by norm_num)

/-! Claim C1. -/

/-- C1 counterexample: when the speed/pitch transform raises on a segment,
modify_prosody does not fall back to the untransformed segment; it aborts the
whole call with a failure result. Here the library transform always raises
and the single prosody edit requests speed 2, and the call fails. -/
theorem C1_counterexample :
    failLib.time_stretch [1] 2 = none ∧
    isSuccess (modify_prosody failLib [1, 1] 1 [Mod.prosody 0 1 0 0 2] false
      (1/2) (1/100) (1/4) 1 (1/20) (1/20) (1/50)) = false := by
  constructor
  · rfl
  · norm_num [modify_prosody, runSchedule, runLoop, stepMod, sortByStart,
      insertByStart, change_speed_pitch, failLib, pyInt, pySlice, isSuccess]

/-- C1 amended: a numeric/library failure inside the speed/pitch transform of
a prosody edit aborts the whole modify_prosody call with a failure result:
there is no local fallback to the untransformed segment and no degraded
success. Stated for a single prosody edit with valid times whose transform
raises (a library whose time_stretch always raises, and speed ≠ 1). -/
theorem C1_amended (lib : Lib) (y : List ℚ) (sr : ℕ)
    (s e pitch vol speed msl θ ks gsc cfd fd sbm : ℚ)
    (hfail : ∀ v r, lib.time_stretch v r = none)
    (hspeed : speed ≠ 1) (h0 : 0 ≤ s) (hse : s < e) :
    isSuccess (modify_prosody lib y sr [Mod.prosody s e pitch vol speed]
        false msl θ ks gsc cfd fd sbm) = false := by
  have h0' : ¬ s < 0 := not_lt.mpr h0
  have hse' : ¬ e ≤ s := not_le.mpr hse
  simp [modify_prosody, runSchedule, runLoop, stepMod, sortByStart,
    insertByStart, change_speed_pitch, isSuccess, hfail, hspeed, h0', hse']

/-- Witness for C1 amended at a concrete input distinct from the
counterexample: three samples, one edit at speed 3. -/
theorem C1_witness :
    isSuccess (modify_prosody failLib [1, 1, 1] 1 [Mod.prosody 0 2 0 0 3]
        false 1 1 1 1 1 1 1) = false :=
  C1_amended failLib [1, 1, 1] 1 0 2 0 0 3 1 1 1 1 1 1 1
    (fun _ _ => rfl) (by norm_num) (by norm_num) (by norm_num)

/-! Claim C2. -/

/-- The invalid-time condition of the prosody validation on line 243. -/
def Mod.invalidTimes : Mod → Prop
  | .silence _ _ => False
  | .prosody s e _ _ _ => s < 0 ∨ e ≤ s

theorem stepMod_invalidTimes (lib : Lib) (cfg : Cfg) (notLast : Bool)
    (st : SchedState) (m : Mod) (h : m.invalidTimes) :
    stepMod lib cfg notLast st m = .error "tiempos inválidos" := by
  cases m with
  | silence s d => exact absurd h (by simp [Mod.invalidTimes])
  | prosody s e p v sp =>
    have h2 : s < 0 ∨ e ≤ s := h
    simp only [stepMod]
    rw [if_pos h2]

theorem runLoop_invalidTimes (lib : Lib) (cfg : Cfg) :
    ∀ (l : List Mod) (st : SchedState), (∃ m ∈ l, m.invalidTimes) →
      isSuccess (runLoop lib cfg st l) = false := by
  intro l
  induction l with
  | nil =>
    rintro st ⟨m, hm, _⟩
    cases hm
  | cons m rest ih =>
    rintro st ⟨m2, hm2, hinv⟩
    rcases List.mem_cons.mp hm2 with rfl | hmem
    · unfold runLoop
      rw [stepMod_invalidTimes lib cfg _ st m2 hinv]
      rfl
    · unfold runLoop
      cases h : stepMod lib cfg (!rest.isEmpty) st m with
      | error msg => rfl
      | ok st2 => exact ih st2 ⟨m2, hmem, hinv⟩

theorem mem_insertByStart {x m : Mod} :
    ∀ {l : List Mod}, x ∈ insertByStart m l ↔ x = m ∨ x ∈ l := by
  intro l
  induction l with
  | nil => simp [insertByStart]
  | cons a l ih =>
    unfold insertByStart
    by_cases h : a.startTime ≤ m.startTime
    · rw [if_pos h]
      simp only [List.mem_cons, ih]
      tauto
    · rw [if_neg h]
      simp only [List.mem_cons]

theorem mem_foldl_insertByStart {x : Mod} :
    ∀ (l acc : List Mod),
      x ∈ l.foldl (fun acc m => insertByStart m acc) acc ↔ x ∈ l ∨ x ∈ acc := by
  intro l
  induction l with
  | nil => simp
  | cons m l ih =>
    intro acc
    simp only [List.foldl_cons]
    rw [ih (insertByStart m acc)]
    rw [mem_insertByStart]
    constructor
    · rintro (h | h | h)
      · exact Or.inl (List.mem_cons_of_mem m h)
      · exact Or.inl (h ▸ List.mem_cons_self m l)
      · exact Or.inr h
    · rintro (h | h)
      · rcases List.mem_cons.mp h with rfl | h2
        · exact Or.inr (Or.inl rfl)
        · exact Or.inl h2
      · exact Or.inr (Or.inr h)

theorem mem_sortByStart {x : Mod} (l : List Mod) :
    x ∈ sortByStart l ↔ x ∈ l := by
  unfold sortByStart
  rw [mem_foldl_insertByStart l []]
  simp

/-- C2: an edit list containing a prosody edit with negative start_time or
with end_time ≤ start_time always yields a failure result: the call returns
the failure dict, so no output waveform is produced and nothing is written
(the source writes the output file only on the success path, lines 357-371).
Holds for every library behaviour, every waveform and all options. -/
theorem C2_invalid_edit_rejected (lib : Lib) (y : List ℚ) (sr : ℕ)
    (mods : List Mod) (rs : Bool) (msl θ ks gsc cfd fd sbm : ℚ)
    (h : ∃ m ∈ mods, m.invalidTimes) :
    isSuccess (modify_prosody lib y sr mods rs msl θ ks gsc cfd fd sbm)
      = false := by
  have hsorted : ∃ m ∈ sortByStart mods, m.invalidTimes := by
    rcases h with ⟨m, hm, hinv⟩
    exact ⟨m, (mem_sortByStart mods).mpr hm, hinv⟩
  unfold modify_prosody
  have hsched : ∀ (y1 : List ℚ) (cfg : Cfg),
      isSuccess (runSchedule lib cfg y1 (sortByStart mods)) = false := by
    intro y1 cfg
    unfold runSchedule
    cases hr : runLoop lib cfg ⟨y1, [], 0⟩ (sortByStart mods) with
    | error msg => rfl
    | ok st =>
      have := runLoop_invalidTimes lib cfg (sortByStart mods) ⟨y1, [], 0⟩
        hsorted
      rw [hr] at this
      exact absurd this (by simp [isSuccess])
  cases rs with
  | false =>
    have h2 := hsched y ⟨sr, (y.length : ℚ) / (sr : ℚ), fd, sbm⟩
    cases hr : runSchedule lib ⟨sr, (y.length : ℚ) / (sr : ℚ), fd, sbm⟩ y
        (sortByStart mods) with
    | error msg => simp [hr, isSuccess]
    | ok st =>
      rw [hr] at h2
      exact absurd h2 (by simp [isSuccess])
  | true =>
    by_cases hy : y = []
    · simp [hy, isSuccess]
    · by_cases hdet : detect_silence y sr msl θ = []
      · rw [if_neg hy, if_pos hdet]
        have h2 := hsched y ⟨sr, (y.length : ℚ) / (sr : ℚ), fd, sbm⟩
        cases hr : runSchedule lib ⟨sr, (y.length : ℚ) / (sr : ℚ), fd, sbm⟩ y
            (sortByStart mods) with
        | error msg => simp [hr, isSuccess]
        | ok st =>
          rw [hr] at h2
          exact absurd h2 (by simp [isSuccess])
      · simp [hy, hdet, isSuccess]

/-- Witness for C2 at the spec example: edit with start 5.0 and end 3.0. -/
theorem C2_witness :
    isSuccess (modify_prosody trivialLib [1, 1] 1 [Mod.prosody 5 3 0 0 1]
        false 1 1 1 1 1 1 1) = false :=
  C2_invalid_edit_rejected trivialLib [1, 1] 1 [Mod.prosody 5 3 0 0 1]
    false 1 1 1 1 1 1 1
    ⟨Mod.prosody 5 3 0 0 1, List.mem_singleton.mpr rfl,
     Or.inr (by norm_num)⟩

/-! Claim C9. -/

/-- C9 counterexample: on the empty waveform the empty-modification call does
not return the input; the segment list stays empty and the call fails with
the no-segments error, so the identity claim fails for every waveform. -/
theorem C9_counterexample :
    modify_prosody trivialLib [] 16000 [] false (1/2) (1/100) (1/4) 1 (1/20)
        (1/20) (1/50)
      = .error "No se generaron segmentos de audio." := by
  norm_num [modify_prosody, runSchedule, runLoop, sortByStart]

theorem pySlice_zero_length (y : List ℚ) : pySlice y 0 y.length = y := by
  unfold pySlice
  rw [List.drop_zero, Nat.sub_zero, List.take_length]

/-- C9 amended: for every nonempty waveform within [-1, 1] (at a positive
sample rate), modify_prosody with no modifications, remove_silence off and
global speed 1 returns the input waveform unchanged: the whole waveform is
the single trailing segment, the crossfade fold is a no-op on one segment,
and normalization leaves an in-range signal untouched. -/
theorem C9_amended (lib : Lib) (y : List ℚ) (sr : ℕ) (msl θ ks cfd fd sbm : ℚ)
    (hy : y ≠ []) (hsr : 0 < sr) (hmax : maxAbs y ≤ 1) :
    modify_prosody lib y sr [] false msl θ ks 1 cfd fd sbm = .ok y := by
  have hlen : 0 < y.length := List.length_pos.mpr hy
  have htot : (0:ℚ) < (y.length : ℚ) / (sr : ℚ) :=
    div_pos (by exact_mod_cast hlen) (by exact_mod_cast hsr)
  have hzero : (pyInt ((0:ℚ) * (sr:ℚ))).toNat = 0 := by norm_num [pyInt]
  have hsched : runSchedule lib ⟨sr, (y.length : ℚ) / (sr : ℚ), fd, sbm⟩ y
      (sortByStart [])
      = .ok ⟨y, [Seg.view 0 y.length], 0⟩ := by
    unfold runSchedule sortByStart
    simp only [List.foldl_nil, runLoop]
    rw [if_pos htot]
    rw [hzero]
    rfl
  unfold modify_prosody
  simp only [Bool.false_eq_true, reduceIte]
  rw [hsched]
  simp only [List.map_cons, List.map_nil, resolveSeg, pySlice_zero_length,
    foldCrossfade]
  rw [if_neg (by norm_num)]
  dsimp only
  rw [if_neg hy]
  unfold normalize_audio
  rw [if_neg (not_lt.mpr hmax)]

/-- Witness for C9 amended at a concrete two-sample waveform. -/
theorem C9_witness :
    modify_prosody trivialLib [(1:ℚ)/2, -(1/2)] 2 [] false 1 1 1 1 1 1 1
      = .ok [(1:ℚ)/2, -(1/2)] :=
  C9_amended trivialLib [(1:ℚ)/2, -(1/2)] 2 1 1 1 1 1 1 (by simp)
    (by norm_num) (by norm_num [maxAbs, abs, max_def])

/-! Claim C6. -/

/-- C6 counterexample: the marking step of detect_silence is not the fixed
linear threshold 10 ^ (thresh / 20). The source calls amplitude_to_db with
ref=np.max, so the threshold is relative to the waveform peak. With linear
threshold θ = 1/100 (thresh = -40 dB) on the waveform [1/10, 1/200] at
sample rate 1 and min_silence_len 1, the fixed-threshold reading marks the
second sample silent and reports the run [(1, 2)], but the source compares
1/200 against peak 1/10 (-26 dB relative) and reports nothing. -/
theorem C6_counterexample :
    detect_silence [(1:ℚ)/10, 1/200] 1 1 (1/100) = [] ∧
    detect_silence_spec [(1:ℚ)/10, 1/200] 1 1 (1/100) = [(1, 2)] := by
  constructor
  · norm_num [detect_silence, silenceFlags, silentFlag, maxAbs, silenceLoop,
      abs, max_def]
  · norm_num [detect_silence_spec, silenceLoop, abs, max_def]

/-- C6 amended: the sample marking of detect_silence is relative to the
waveform peak (amplitude_to_db with ref=np.max, amin floor 1e-5, top_db
clamp 80). It agrees with the fixed-linear-threshold description exactly on
waveforms of peak 1.0 whose samples all exceed the amin floor, for
thresholds above -80 dB (θ above 1e-4): there the source output equals the
spec-modelled fixed-threshold detector, including run coalescing, the
minimum-length filter and runs touching the end of the waveform. -/
theorem C6_amended (y : List ℚ) (sr : ℕ) (ml θ : ℚ)
    (hpeak : maxAbs y = 1)
    (hfloor : ∀ v ∈ y, 1/100000 < |v|)
    (hθ : 1/10000 < θ) :
    detect_silence y sr ml θ = detect_silence_spec y sr ml θ := by
  unfold detect_silence detect_silence_spec silenceFlags
  rw [hpeak]
  have hr : max ((1 : ℚ)/10000000000) ((1:ℚ) * 1) = 1 := by norm_num
  rw [hr]
  congr 1
  apply List.map_congr_left
  intro v hv
  have hv2 := hfloor v hv
  have hθ0 : (0:ℚ) < θ := lt_trans (by norm_num) hθ
  unfold silentFlag
  apply decide_eq_decide.mpr
  have habs : |v| * |v| = v * v := abs_mul_abs_self v
  have hsq : (1:ℚ)/10000000000 < v * v := by nlinarith
  have hmax : max ((1 : ℚ)/10000000000) (v * v) = v * v :=
    max_eq_right (le_of_lt hsq)
  have hclamp : (1:ℚ)/100000000 < θ * θ := by nlinarith
  rw [hmax, one_mul]
  constructor
  · rintro ⟨h1, _⟩
    by_contra hcon
    push_neg at hcon
    nlinarith [abs_nonneg v]
  · intro h1
    refine ⟨?_, hclamp⟩
    nlinarith [abs_nonneg v]

/-- Witness for C6 amended: waveform of peak 1 with one quiet sample, where
both detectors report the same single run. -/
theorem C6_witness :
    detect_silence [1, (1:ℚ)/200] 1 1 (1/100)
      = detect_silence_spec [1, (1:ℚ)/200] 1 1 (1/100) :=
  C6_amended [1, (1:ℚ)/200] 1 1 (1/100)
    (by norm_num [maxAbs, abs, max_def])
    (by
      intro v hv
      rcases List.mem_cons.mp hv with rfl | hv2
      · norm_num [abs, max_def]
      · rcases List.mem_cons.mp hv2 with rfl | hv3
        · norm_num [abs, max_def]
        · cases hv3)
    (by norm_num)

/-! Claim C7. -/

/-- A prosody edit that materializes a fresh buffer before apply_fade runs
(speed, pitch or volume actually changed), so the in-place fade cannot write
through a view into the source buffer; silence edits never fade. -/
def Mod.noAlias : Mod → Prop
  | .silence _ _ => True
  | .prosody _ _ p v sp => sp ≠ 1 ∨ p ≠ 0 ∨ v ≠ 0

theorem finishProsody_yBuf {cfg : Cfg} {nl : Bool} {segs : List Seg}
    {yB : List ℚ} {seg : Seg} {e : ℚ} {st2 : SchedState}
    (h : finishProsody cfg nl segs yB seg e = .ok st2) : st2.yBuf = yB := by
  unfold finishProsody at h
  split at h
  · split at h
    · exact Except.noConfusion h
    · injection h with h2
      rw [← h2]
  · injection h with h2
    rw [← h2]

theorem stepMod_yBuf_eq (lib : Lib) (cfg : Cfg) (notLast : Bool)
    (st st2 : SchedState) (m : Mod) (hna : m.noAlias)
    (h : stepMod lib cfg notLast st m = .ok st2) : st2.yBuf = st.yBuf := by
  cases m with
  | silence s dur? =>
    simp only [stepMod] at h
    split at h
    · exact Except.noConfusion h
    · split at h
      · exact Except.noConfusion h
      · injection h with h2
        rw [← h2]
  | prosody s e p v sp =>
    simp only [stepMod] at h
    split at h
    · exact Except.noConfusion h
    · split at h
      · exact Except.noConfusion h
      · rename_i fresh heq1
        split at h
        · rename_i v2 heq2
          split at h
          · exact Except.noConfusion h
          · exact finishProsody_yBuf h
        · rename_i heq2
          by_cases hv : v ≠ 0
          · rw [if_pos hv] at heq2
            exact Option.noConfusion heq2
          · rw [if_neg hv] at heq2
            subst heq2
            by_cases hsp : sp ≠ 1 ∨ p ≠ 0
            · rw [if_pos hsp] at heq1
              cases hc : change_speed_pitch lib
                  (pySlice st.yBuf (pyInt (s * (cfg.sr:ℚ))).toNat
                    (pyInt ((if cfg.total < e then cfg.total else e)
                      * (cfg.sr:ℚ))).toNat) cfg.sr sp p with
              | none =>
                rw [hc] at heq1
                exact Option.noConfusion heq1
              | some w =>
                rw [hc] at heq1
                simp at heq1
            · push_neg at hsp
              push_neg at hv
              rcases hna with h1 | h1 | h1
              · exact absurd hsp.1 h1
              · exact absurd hsp.2 h1
              · exact absurd hv h1

theorem runLoop_yBuf_eq (lib : Lib) (cfg : Cfg) :
    ∀ (l : List Mod) (st st2 : SchedState), (∀ m ∈ l, m.noAlias) →
      runLoop lib cfg st l = .ok st2 → st2.yBuf = st.yBuf := by
  intro l
  induction l with
  | nil =>
    intro st st2 _ h
    injection h with h2
    rw [← h2]
  | cons m rest ih =>
    intro st st2 hna h
    unfold runLoop at h
    cases hs : stepMod lib cfg (!rest.isEmpty) st m with
    | error msg =>
      rw [hs] at h
      exact Except.noConfusion h
    | ok st1 =>
      rw [hs] at h
      have h1 : st2.yBuf = st1.yBuf :=
        ih st1 st2 (fun m2 hm2 => hna m2 (List.mem_cons_of_mem m hm2)) h
      have h2 : st1.yBuf = st.yBuf :=
        stepMod_yBuf_eq lib cfg (!rest.isEmpty) st st1 m
          (hna m (List.mem_cons_self m rest)) hs
      rw [h1, h2]

theorem viewsIntact_of_yBuf_eq (y : List ℚ) (st : SchedState)
    (h : st.yBuf = y) : viewsIntact y st = true := by
  unfold viewsIntact
  rw [List.all_eq_true]
  intro seg hseg
  cases seg with
  | view a b => simp [h]
  | arr d => rfl

set_option maxHeartbeats 2000000 in
/-- C7 counterexample: apply_fade mutates the loaded waveform in place
through a NumPy view. On the waveform [1,1,1,1] at sample rate 1, a prosody
edit over [1,3) with no speed/pitch/volume change fades the view y[1:3] in
place (the buffer becomes [1,0,0,1]); the following silence edit at time 2
moves last_end back to 2, so the trailing unmodified slice is the view
y[2:4], which reads back [0,1] instead of the original samples [1,1]. -/
theorem C7_counterexample :
    (runSchedule trivialLib ⟨1, 4, 2, 1⟩ [1, 1, 1, 1]
        (sortByStart [Mod.prosody 1 3 0 0 1, Mod.silence 2 (some 1)])).toOption.map
      (fun st => (st.segments.getLast?, pySlice st.yBuf 2 4,
                  pySlice [1, 1, 1, 1] 2 4))
      = some (some (Seg.view 2 4), [0, 1], [1, 1]) := by
  iterate 8
    all_goals
      first
      | rfl
      | simp [runSchedule, runLoop, stepMod, sortByStart, insertByStart,
          Mod.startTime, pyInt, pySlice, spliceAt, apply_fade,
          apply_fade_core, fadeInPass, linspace, pyTailSlice, pyInitSlice,
          npMulIP, insert_silence, finishProsody, List.range_succ]
      | norm_num [runSchedule, runLoop, stepMod, sortByStart, insertByStart,
          Mod.startTime, pyInt, pySlice, spliceAt, apply_fade,
          apply_fade_core, fadeInPass, linspace, pyTailSlice, pyInitSlice,
          npMulIP, insert_silence, finishProsody, List.range_succ]
      | skip
  exact ⟨_, rfl, rfl, rfl⟩

/-- C7 amended: the scheduling loop leaves the loaded source buffer
unmutated, and every unmodified (view) slice still reads back the original
samples, provided every prosody edit actually changes speed, pitch or
volume; a prosody edit with none of the three set fades its segment in
place through a view and can corrupt slices that are re-read later, as the
counterexample shows. -/
theorem C7_amended (lib : Lib) (cfg : Cfg) (y : List ℚ) (mods : List Mod)
    (h : ∀ m ∈ mods, m.noAlias) :
    (runSchedule lib cfg y (sortByStart mods)).toOption.all
      (fun st => decide (st.yBuf = y) && viewsIntact y st) = true := by
  have h2 : ∀ m ∈ sortByStart mods, m.noAlias :=
    fun m hm => h m ((mem_sortByStart mods).mp hm)
  unfold runSchedule
  cases hr : runLoop lib cfg ⟨y, [], 0⟩ (sortByStart mods) with
  | error msg => rfl
  | ok st =>
    have hy : st.yBuf = y :=
      runLoop_yBuf_eq lib cfg (sortByStart mods) ⟨y, [], 0⟩ st h2 hr
    dsimp only
    split
    · simp only [Except.toOption, Option.all]
      rw [Bool.and_eq_true]
      exact ⟨decide_eq_true_eq.mpr hy, viewsIntact_of_yBuf_eq y _ hy⟩
    · simp only [Except.toOption, Option.all]
      rw [Bool.and_eq_true]
      exact ⟨decide_eq_true_eq.mpr hy, viewsIntact_of_yBuf_eq y st hy⟩

/-- Witness for C7 amended: a single prosody edit with a pitch shift (which
materializes a fresh segment) leaves the source buffer intact. -/
theorem C7_witness :
    (runSchedule trivialLib ⟨1, 2, 1, 1⟩ [1, 1]
        (sortByStart [Mod.prosody 0 1 1 0 1])).toOption.all
      (fun st => decide (st.yBuf = [1, 1]) && viewsIntact [1, 1] st)
      = true :=
  C7_amended trivialLib ⟨1, 2, 1, 1⟩ [1, 1] [Mod.prosody 0 1 1 0 1]
    (by
      intro m hm
      rcases List.mem_cons.mp hm with rfl | hm2
      · exact Or.inr (Or.inl one_ne_zero)
      · cases hm2)

end Interfaz

